import Mathlib

/-!
Verification of the Tesseract encryption toolkit's core formats.

Shallow embedding of:
  - `src/crypto/streaming.rs`: `derive_chunk_nonce`, `StreamConfig`,
    `StreamHeader` (`calculate_chunks`, `write_to`, `read_from`);
  - `src/volume/header.rs`: `VolumeHeader` (`new`, `to_bytes`, `from_bytes`,
    `touch`), with the bincode v1 default encoding (fixed-width little-endian
    integers, enum variant tags as `u32`) made explicit;
  - `src/wasm/bindings.rs`: the envelope handling of
    `decrypt_bytes_with_config` / `decrypt_text_with_config`, with the KDF,
    AEAD and base64 primitives as parameters (they are external crates).

Bytes are modelled as `Nat` values (< 256 for genuine bytes); machine
integers are `Nat` with explicit reduction modulo `2 ^ w` where the Rust
code can overflow.
-/

namespace Tesseract

/-! ## Little-endian byte encoding helpers -/

/-- Little-endian byte encoding of `x` into exactly `w` bytes
(the semantics of Rust's `uN::to_le_bytes`, truncating `x` mod `256 ^ w`). -/
def leBytes : Nat → Nat → List Nat
  | 0, _ => []
  | w + 1, x => x % 256 :: leBytes w (x / 256)

/-- Little-endian value of a byte list (Rust's `uN::from_le_bytes`). -/
def leVal : List Nat → Nat
  | [] => 0
  | b :: bs => b + 256 * leVal bs

@[simp] theorem leBytes_length (w x : Nat) : (leBytes w x).length = w := by
  induction w generalizing x with
  | zero => rfl
  | succ w ih => simp [leBytes, ih]

theorem leVal_leBytes (w x : Nat) (h : x < 256 ^ w) : leVal (leBytes w x) = x := by
  induction w generalizing x with
  | zero => simp [leBytes, leVal]; omega
  | succ w ih =>
    have hdiv : x / 256 < 256 ^ w := by
      rw [Nat.div_lt_iff_lt_mul (by norm_num)]
      calc x < 256 ^ (w + 1) := h
        _ = 256 ^ w * 256 := by ring
    simp only [leBytes, leVal, ih (x / 256) hdiv]
    omega

theorem leBytes_inj (w i j : Nat) (hi : i < 256 ^ w) (hj : j < 256 ^ w)
    (h : leBytes w i = leBytes w j) : i = j := by
  have := congrArg leVal h
  rwa [leVal_leBytes w i hi, leVal_leBytes w j hj] at this

/-! ## Nonce derivation (`src/crypto/streaming.rs`, `derive_chunk_nonce`) -/

/-- Modelled from the spec: `NONCE_LEN` comes from the crate's `config`
module, which is not among the provided sources; the spec fixes nonces at
12 bytes (96 bits). -/
def NONCE_LEN : Nat := 12

/-- Embedding of `derive_chunk_nonce`: copy the base nonce, then XOR the
8 little-endian bytes of `chunk_index` into positions 4..12
(`for i in 0..8 { nonce[i + 4] ^= counter_bytes[i] }`). -/
def derive_chunk_nonce (base_nonce : List Nat) (chunk_index : Nat) : List Nat :=
  let counter_bytes := leBytes 8 chunk_index
  base_nonce.take 4 ++ (base_nonce.drop 4).zipWith (fun b c => b ^^^ c) counter_bytes

theorem zipWith_xor_left_cancel (s a b : List Nat)
    (ha : a.length = s.length) (hb : b.length = s.length)
    (h : s.zipWith (fun x y => x ^^^ y) a = s.zipWith (fun x y => x ^^^ y) b) :
    a = b := by
  induction s generalizing a b with
  | nil =>
    cases a with
    | nil =>
      cases b with
      | nil => rfl
      | cons y ys => simp at hb
    | cons x xs => simp at ha
  | cons sh st ih =>
    cases a with
    | nil => simp at ha
    | cons x xs =>
      cases b with
      | nil => simp at hb
      | cons y ys =>
        simp only [List.zipWith, List.cons.injEq] at h
        have hx : x = y := by
          have := congrArg (fun z => sh ^^^ z) h.1
          simpa [← Nat.xor_assoc, Nat.xor_self, Nat.zero_xor] using this
        have hxs : xs = ys := by
          apply ih xs ys (by simpa using ha) (by simpa using hb) h.2
        rw [hx, hxs]

/-- C1: for a 12-byte base nonce and distinct chunk indices below `2 ^ 64`,
`derive_chunk_nonce` produces distinct nonces (nonce uniqueness within a
single file). -/
theorem derive_chunk_nonce_injective (base_nonce : List Nat) (i j : Nat)
    (hlen : base_nonce.length = 12)
    (hi : i < 2 ^ 64) (hj : j < 2 ^ 64) (hij : i ≠ j) :
    derive_chunk_nonce base_nonce i ≠ derive_chunk_nonce base_nonce j := by
  intro h
  apply hij
  unfold derive_chunk_nonce at h
  have hdrop : (base_nonce.drop 4).length = 8 := by simp [hlen]
  have htail : (base_nonce.drop 4).zipWith (fun b c => b ^^^ c) (leBytes 8 i)
      = (base_nonce.drop 4).zipWith (fun b c => b ^^^ c) (leBytes 8 j) := by
    have hlt : (base_nonce.take 4).length = (base_nonce.take 4).length := rfl
    exact List.append_cancel_left h
  have hbytes : leBytes 8 i = leBytes 8 j :=
    zipWith_xor_left_cancel (base_nonce.drop 4) _ _
      (by simp [hdrop]) (by simp [hdrop]) htail
  have h64 : (256 : Nat) ^ 8 = 2 ^ 64 := by norm_num
  exact leBytes_inj 8 i j (h64 ▸ hi) (h64 ▸ hj) hbytes

/-- Witness for C1 at a concrete base nonce and indices 0 and 1. -/
theorem derive_chunk_nonce_injective_witness :
    (List.replicate 12 1).length = 12 ∧ (0 : Nat) < 2 ^ 64 ∧ (1 : Nat) < 2 ^ 64 ∧
      (0 : Nat) ≠ 1 ∧
      derive_chunk_nonce (List.replicate 12 1) 0 ≠ derive_chunk_nonce (List.replicate 12 1) 1 :=
  ⟨by decide, by norm_num, by norm_num, by decide,
    derive_chunk_nonce_injective (List.replicate 12 1) 0 1 (by decide)
      (by norm_num) (by norm_num) (by decide)⟩

/-! ## Stream configuration (`src/crypto/streaming.rs`, `StreamConfig`) -/

/-- Error type of the streaming module (`CryptorError`), restricted to the
variants the embedded functions produce. -/
inductive CryptorError where
  | InvalidFormat
  | IoError
  | Cryptography (msg : String)
deriving DecidableEq, Repr

/-- Default chunk size: 1 MB. -/
def DEFAULT_CHUNK_SIZE : Nat := 1024 * 1024

/-- Minimum chunk size: 4 KB. -/
def MIN_CHUNK_SIZE : Nat := 4 * 1024

/-- Maximum chunk size: 16 MB. -/
def MAX_CHUNK_SIZE : Nat := 16 * 1024 * 1024

/-- Embedding of `StreamConfig`. -/
structure StreamConfig where
  chunk_size : Nat
  compress : Bool
deriving DecidableEq, Repr

/-- Embedding of `StreamConfig::new`: reject chunk sizes outside
`[MIN_CHUNK_SIZE, MAX_CHUNK_SIZE]`, otherwise return the config with
compression off. -/
def StreamConfig.new (chunk_size : Nat) : Except CryptorError StreamConfig :=
  if chunk_size < MIN_CHUNK_SIZE ∨ chunk_size > MAX_CHUNK_SIZE then
    .error (.Cryptography
      s!"Chunk size {chunk_size} is out of range [{MIN_CHUNK_SIZE}, {MAX_CHUNK_SIZE}]")
  else
    .ok { chunk_size := chunk_size, compress := false }

/-- C7: `StreamConfig::new` succeeds with exactly the requested chunk size and
`compress = false` precisely on `4096 ≤ chunk_size ≤ 16 MiB`, and errors
outside that range; in particular at the four boundary values. -/
theorem StreamConfig_new_range (chunk_size : Nat) :
    (StreamConfig.new chunk_size
        = .ok { chunk_size := chunk_size, compress := false }
      ↔ 4096 ≤ chunk_size ∧ chunk_size ≤ 16 * 1024 * 1024)
    ∧ ((∃ e, StreamConfig.new chunk_size = .error e)
      ↔ (chunk_size < 4096 ∨ 16 * 1024 * 1024 < chunk_size))
    ∧ (StreamConfig.new 4096).isOk = true
    ∧ (StreamConfig.new (16 * 1024 * 1024)).isOk = true
    ∧ (StreamConfig.new 4095).isOk = false
    ∧ (StreamConfig.new (16 * 1024 * 1024 + 1)).isOk = false := by
  have hok : ∀ c, 4096 ≤ c → c ≤ 16 * 1024 * 1024 →
      StreamConfig.new c = .ok { chunk_size := c, compress := false } := by
    intro c h1 h2
    unfold StreamConfig.new
    rw [if_neg (by simp only [MIN_CHUNK_SIZE, MAX_CHUNK_SIZE]; omega)]
  have herr : ∀ c, c < 4096 ∨ 16 * 1024 * 1024 < c →
      ∃ e, StreamConfig.new c = .error e := by
    intro c h
    unfold StreamConfig.new
    rw [if_pos (by simp only [MIN_CHUNK_SIZE, MAX_CHUNK_SIZE]; omega)]
    exact ⟨_, rfl⟩
  refine ⟨?_, ?_, ?_, ?_, by decide, by decide⟩
  · constructor
    · intro h
      by_contra hn
      obtain ⟨e, he⟩ := herr chunk_size (by omega)
      rw [h] at he
      cases he
    · intro h
      exact hok chunk_size h.1 h.2
  · constructor
    · rintro ⟨e, he⟩
      by_contra hn
      rw [hok chunk_size (by omega) (by omega)] at he
      cases he
    · exact herr chunk_size
  · rw [hok 4096 (by norm_num) (by norm_num)]; rfl
  · rw [hok (16 * 1024 * 1024) (by norm_num) (by norm_num)]; rfl

/-! ## Chunk counting (`StreamHeader::calculate_chunks`) -/

/-- Embedding of `StreamHeader::calculate_chunks`:
`(file_size + chunk_size - 1) / chunk_size` computed in `u64` arithmetic,
so the sum wraps modulo `2 ^ 64` (Rust release-mode overflow semantics;
`chunk_size: u32` is first cast to `u64`). -/
def calculate_chunks (file_size chunk_size : Nat) : Nat :=
  ((file_size + chunk_size - 1) % 2 ^ 64) / chunk_size

/-- Modelled from the spec: `ceil_div`, the mathematical ceiling of
`n / c` for `c > 0`, used as the comparison point of claim C4. -/
def ceil_div (n c : Nat) : Nat := (n + c - 1) / c

/-- The spec-side `ceil_div` really is the mathematical ceiling of `n / c`:
it is the least `k` with `n ≤ c * k`. -/
theorem ceil_div_is_ceiling (n c : Nat) (hc : 0 < c) (k : Nat) :
    ceil_div n c ≤ k ↔ n ≤ c * k := by
  have h : ceil_div n c = n ⌈/⌉ c := (Nat.ceilDiv_eq_add_pred_div n c).symm
  rw [h, ceilDiv_le_iff_le_smul hc, smul_eq_mul]

/-- C4 counterexample: at `file_size = 2 ^ 64 - 1`, `chunk_size = 4096` the
`u64` addition wraps, so `calculate_chunks` returns 0 instead of the
mathematical ceiling. -/
theorem calculate_chunks_overflow :
    calculate_chunks (2 ^ 64 - 1) 4096 = 0 ∧
      ceil_div (2 ^ 64 - 1) 4096 ≠ 0 ∧
      calculate_chunks (2 ^ 64 - 1) 4096 ≠ ceil_div (2 ^ 64 - 1) 4096 := by
  refine ⟨by decide, by decide, by decide⟩

/-- C4 amended: whenever the `u64` sum `file_size + chunk_size - 1` does not
overflow (`file_size + chunk_size ≤ 2 ^ 64`) and `chunk_size > 0`,
`calculate_chunks` equals the mathematical ceiling of
`file_size / chunk_size`; in particular it is 0 at `file_size = 0`. -/
theorem calculate_chunks_eq_ceil_div (file_size chunk_size : Nat)
    (hc : 0 < chunk_size) (hno : file_size + chunk_size ≤ 2 ^ 64) :
    calculate_chunks file_size chunk_size = ceil_div file_size chunk_size
    ∧ calculate_chunks 0 chunk_size = 0 := by
  constructor
  · unfold calculate_chunks ceil_div
    rw [Nat.mod_eq_of_lt (by omega)]
  · unfold calculate_chunks
    rw [Nat.mod_eq_of_lt (by omega)]
    exact Nat.div_eq_of_lt (by omega)

/-- Witness for C4's amended theorem at `file_size = 1025`, `chunk_size = 1024`. -/
theorem calculate_chunks_eq_ceil_div_witness :
    0 < 1024 ∧ 1025 + 1024 ≤ 2 ^ 64 ∧
      (calculate_chunks 1025 1024 = ceil_div 1025 1024 ∧ calculate_chunks 0 1024 = 0) :=
  ⟨by norm_num, by norm_num, calculate_chunks_eq_ceil_div 1025 1024 (by norm_num) (by norm_num)⟩

/-! ## Stream header (`src/crypto/streaming.rs`, `StreamHeader`) -/

/-- Magic bytes for streaming file format v2: `b"SCRYPTv2"`. -/
def MAGIC_BYTES_V2 : List Nat := [0x53, 0x43, 0x52, 0x59, 0x50, 0x54, 0x76, 0x32]

/-- File format version `0x02`. -/
def FORMAT_VERSION : Nat := 0x02

/-- Whether a byte is a UTF-8 continuation byte (`0x80..=0xBF`). -/
def utf8Cont (b : Nat) : Bool := 0x80 ≤ b && b ≤ 0xBF

/-- UTF-8 validity of a byte sequence, as checked by Rust's
`String::from_utf8` (RFC 3629: no overlong forms, no surrogates,
no code points above `U+10FFFF`). -/
def validUtf8 : List Nat → Bool
  | [] => true
  | b :: rest =>
    if b ≤ 0x7F then validUtf8 rest
    else if 0xC2 ≤ b && b ≤ 0xDF then
      match rest with
      | c1 :: rest2 => utf8Cont c1 && validUtf8 rest2
      | [] => false
    else if b = 0xE0 then
      match rest with
      | c1 :: c2 :: rest2 => (0xA0 ≤ c1 && c1 ≤ 0xBF) && utf8Cont c2 && validUtf8 rest2
      | _ => false
    else if (0xE1 ≤ b && b ≤ 0xEC) || b = 0xEE || b = 0xEF then
      match rest with
      | c1 :: c2 :: rest2 => utf8Cont c1 && utf8Cont c2 && validUtf8 rest2
      | _ => false
    else if b = 0xED then
      match rest with
      | c1 :: c2 :: rest2 => (0x80 ≤ c1 && c1 ≤ 0x9F) && utf8Cont c2 && validUtf8 rest2
      | _ => false
    else if b = 0xF0 then
      match rest with
      | c1 :: c2 :: c3 :: rest2 =>
        (0x90 ≤ c1 && c1 ≤ 0xBF) && utf8Cont c2 && utf8Cont c3 && validUtf8 rest2
      | _ => false
    else if 0xF1 ≤ b && b ≤ 0xF3 then
      match rest with
      | c1 :: c2 :: c3 :: rest2 =>
        utf8Cont c1 && utf8Cont c2 && utf8Cont c3 && validUtf8 rest2
      | _ => false
    else if b = 0xF4 then
      match rest with
      | c1 :: c2 :: c3 :: rest2 =>
        (0x80 ≤ c1 && c1 ≤ 0x8F) && utf8Cont c2 && utf8Cont c3 && validUtf8 rest2
      | _ => false
    else false

/-- Embedding of `StreamHeader`. The Rust `String` fields (`salt`,
`metadata`) are modelled by their UTF-8 byte encodings; `String` equality
in Rust coincides with equality of those byte lists. -/
structure StreamHeader where
  salt : List Nat
  base_nonce : List Nat
  chunk_size : Nat
  total_chunks : Nat
  original_size : Nat
  metadata : Option (List Nat)
deriving DecidableEq, Repr

/-- A `Write::write_all` step: append the bytes to the sink's buffer. -/
def writeAll (buf bytes : List Nat) : List Nat := buf ++ bytes

/-- Embedding of `StreamHeader::write_to`, threading the output buffer
through the successive `write_all` calls of the source. The `as u16`
casts of the salt and metadata lengths reduce modulo `2 ^ 16`. -/
def StreamHeader.write_to (h : StreamHeader) : List Nat :=
  let buf : List Nat := []
  let buf := writeAll buf MAGIC_BYTES_V2
  let buf := writeAll buf [FORMAT_VERSION]
  let buf := writeAll buf (leBytes 4 0)
  let salt_bytes := h.salt
  let salt_len := salt_bytes.length % 2 ^ 16
  let buf := writeAll buf (leBytes 2 salt_len)
  let buf := writeAll buf salt_bytes
  let buf := writeAll buf h.base_nonce
  let buf := writeAll buf (leBytes 4 h.chunk_size)
  let buf := writeAll buf (leBytes 8 h.total_chunks)
  let buf := writeAll buf (leBytes 8 h.original_size)
  let metadata_bytes := h.metadata.getD []
  let metadata_len := metadata_bytes.length % 2 ^ 16
  let buf := writeAll buf (leBytes 2 metadata_len)
  writeAll buf metadata_bytes

/-- A `Read::read_exact` step on an in-memory source: take exactly `n`
bytes or fail with an I/O error (`UnexpectedEof`). -/
def readExact (n : Nat) (input : List Nat) : Except CryptorError (List Nat × List Nat) :=
  if input.length < n then .error .IoError else .ok (input.take n, input.drop n)

/-- Embedding of `StreamHeader::read_from` over an in-memory source. -/
def StreamHeader.read_from (input : List Nat) : Except CryptorError StreamHeader := do
  let (magic, input) ← readExact 8 input
  if magic ≠ MAGIC_BYTES_V2 then throw .InvalidFormat
  let (version, input) ← readExact 1 input
  if version ≠ [FORMAT_VERSION] then throw .InvalidFormat
  let (_header_size_bytes, input) ← readExact 4 input
  let (salt_len_bytes, input) ← readExact 2 input
  let salt_len := leVal salt_len_bytes
  let (salt, input) ← readExact salt_len input
  if ¬ validUtf8 salt then throw .InvalidFormat
  let (base_nonce, input) ← readExact NONCE_LEN input
  let (chunk_size_bytes, input) ← readExact 4 input
  let chunk_size := leVal chunk_size_bytes
  let (total_chunks_bytes, input) ← readExact 8 input
  let total_chunks := leVal total_chunks_bytes
  let (original_size_bytes, input) ← readExact 8 input
  let original_size := leVal original_size_bytes
  let (metadata_len_bytes, input) ← readExact 2 input
  let metadata_len := leVal metadata_len_bytes
  let metadata ← if metadata_len > 0 then do
      let (metadata_bytes, _input) ← readExact metadata_len input
      if ¬ validUtf8 metadata_bytes then throw CryptorError.InvalidFormat
      pure (some metadata_bytes)
    else pure (none : Option (List Nat))
  pure { salt := salt, base_nonce := base_nonce, chunk_size := chunk_size,
         total_chunks := total_chunks, original_size := original_size,
         metadata := metadata }

theorem readExact_append (l r : List Nat) (n : Nat) (h : l.length = n) :
    readExact n (l ++ r) = .ok (l, r) := by
  subst h
  unfold readExact
  rw [if_neg (by simp)]
  rw [List.take_left, List.drop_left]

theorem readExact_exact (l : List Nat) (n : Nat) (h : l.length = n) :
    readExact n l = .ok (l, []) := by
  subst h
  unfold readExact
  rw [if_neg (by omega)]
  rw [List.take_length, List.drop_length]

/-- Flattening of `StreamHeader.write_to` into one concatenation
(shared helper for the layout and round-trip theorems). -/
theorem write_to_eq (h : StreamHeader) :
    h.write_to
      = [0x53, 0x43, 0x52, 0x59, 0x50, 0x54, 0x76, 0x32] ++ [0x02]
        ++ [0, 0, 0, 0]
        ++ leBytes 2 h.salt.length ++ h.salt
        ++ h.base_nonce
        ++ leBytes 4 h.chunk_size
        ++ leBytes 8 h.total_chunks
        ++ leBytes 8 h.original_size
        ++ leBytes 2 (h.metadata.getD []).length ++ h.metadata.getD [] := by
  have hmod : ∀ x : Nat, leBytes 2 (x % 2 ^ 16) = leBytes 2 x := by
    intro x
    show x % 2 ^ 16 % 256 :: (x % 2 ^ 16 / 256 % 256) :: []
        = x % 256 :: (x / 256 % 256) :: []
    have h1 : x % 2 ^ 16 % 256 = x % 256 := by omega
    have h2 : x % 2 ^ 16 / 256 % 256 = x / 256 % 256 := by omega
    rw [h1, h2]
  unfold StreamHeader.write_to writeAll
  dsimp only
  rw [hmod, hmod]
  simp only [MAGIC_BYTES_V2, FORMAT_VERSION, List.nil_append, List.append_assoc]
  rfl

/-- C6: the bytes emitted by `StreamHeader::write_to` are exactly the
magic `"SCRYPTv2"`, the version byte `0x02`, the four-byte reserved
header-size field written as zero, the salt length as `u16` LE followed by
the salt bytes, the 12-byte base nonce, `chunk_size` as `u32` LE,
`total_chunks` as `u64` LE, `original_size` as `u64` LE, and the metadata
length as `u16` LE followed by the metadata bytes (zero length and no
bytes when metadata is absent). -/
theorem write_to_layout (h : StreamHeader) :
    h.write_to
      = [0x53, 0x43, 0x52, 0x59, 0x50, 0x54, 0x76, 0x32] ++ [0x02]
        ++ [0, 0, 0, 0]
        ++ leBytes 2 h.salt.length ++ h.salt
        ++ h.base_nonce
        ++ leBytes 4 h.chunk_size
        ++ leBytes 8 h.total_chunks
        ++ leBytes 8 h.original_size
        ++ leBytes 2 (h.metadata.getD []).length ++ h.metadata.getD [] :=
  write_to_eq h

@[simp] theorem except_ok_bind {ε α β : Type} (a : α) (f : α → Except ε β) :
    (Except.ok a >>= f) = f a := rfl

@[simp] theorem except_pure_bind {ε α β : Type} (a : α) (f : α → Except ε β) :
    ((pure a : Except ε α) >>= f) = f a := rfl

/-- C2 amended: `read_from` after `write_to` recovers the header exactly,
for headers whose salt is valid UTF-8 of length below `2 ^ 16`, whose base
nonce has 12 bytes, whose numeric fields fit their machine widths, and
whose metadata, when present, is nonempty valid UTF-8 of length below
`2 ^ 16`. -/
theorem stream_header_roundtrip (h : StreamHeader)
    (hsalt_utf8 : validUtf8 h.salt = true)
    (hsalt_len : h.salt.length < 2 ^ 16)
    (hnonce : h.base_nonce.length = 12)
    (hcs : h.chunk_size < 2 ^ 32)
    (htc : h.total_chunks < 2 ^ 64)
    (hos : h.original_size < 2 ^ 64)
    (hmeta : h.metadata = none
      ∨ ∃ m, h.metadata = some m ∧ m ≠ [] ∧ validUtf8 m = true ∧ m.length < 2 ^ 16) :
    StreamHeader.read_from h.write_to = .ok h := by
  obtain ⟨salt, nonce, cs, tc, os, meta⟩ := h
  simp only at hsalt_utf8 hsalt_len hnonce hcs htc hos hmeta
  have hsl : salt.length < 256 ^ 2 := by norm_num at hsalt_len ⊢; exact hsalt_len
  have hmd : (meta.getD []).length < 256 ^ 2 := by
    rcases hmeta with hnone | ⟨m, hm, _, _, hml⟩
    · subst hnone; norm_num
    · subst hm; simp only [Option.getD_some]; norm_num at hml ⊢; exact hml
  rw [write_to_eq]
  unfold StreamHeader.read_from
  simp only [List.append_assoc]
  rw [readExact_append [0x53, 0x43, 0x52, 0x59, 0x50, 0x54, 0x76, 0x32] _ 8 rfl]
  simp only [except_ok_bind]
  rw [if_neg (by decide)]
  rw [readExact_append [0x02] _ 1 rfl]
  simp only [except_ok_bind]
  rw [if_neg (by decide)]
  rw [readExact_append [0, 0, 0, 0] _ 4 rfl]
  simp only [except_ok_bind]
  rw [readExact_append (leBytes 2 salt.length) _ 2 (by simp)]
  simp only [except_ok_bind]
  rw [leVal_leBytes 2 salt.length hsl]
  rw [readExact_append salt _ salt.length rfl]
  simp only [except_ok_bind]
  rw [if_neg (by simp [hsalt_utf8])]
  rw [readExact_append nonce _ NONCE_LEN (by rw [hnonce]; rfl)]
  simp only [except_ok_bind]
  rw [readExact_append (leBytes 4 cs) _ 4 (by simp)]
  simp only [except_ok_bind]
  rw [readExact_append (leBytes 8 tc) _ 8 (by simp)]
  simp only [except_ok_bind]
  rw [readExact_append (leBytes 8 os) _ 8 (by simp)]
  simp only [except_ok_bind]
  rw [readExact_append (leBytes 2 (meta.getD []).length) _ 2 (by simp)]
  simp only [except_ok_bind]
  rw [leVal_leBytes 2 (meta.getD []).length hmd]
  rcases hmeta with hnone | ⟨m, hm, hne, hmv, hml⟩
  · subst hnone
    simp only [Option.getD_none, List.length_nil]
    rw [if_neg (by omega)]
    simp only [except_pure_bind]
    rw [leVal_leBytes 4 cs (by norm_num at hcs ⊢; exact hcs),
      leVal_leBytes 8 tc (by norm_num at htc ⊢; exact htc),
      leVal_leBytes 8 os (by norm_num at hos ⊢; exact hos)]
    rfl
  · subst hm
    simp only [Option.getD_some]
    rw [if_pos (by simpa using List.length_pos.mpr hne)]
    rw [readExact_exact m m.length rfl]
    simp only [except_ok_bind]
    rw [if_neg (by simp [hmv])]
    simp only [except_pure_bind]
    rw [leVal_leBytes 4 cs (by norm_num at hcs ⊢; exact hcs),
      leVal_leBytes 8 tc (by norm_num at htc ⊢; exact htc),
      leVal_leBytes 8 os (by norm_num at hos ⊢; exact hos)]
    rfl

/-- A stream header with `metadata = Some("")`: valid per the claim's
hypotheses (salt and metadata both valid UTF-8), but not round-trippable. -/
def emptyMetaHeader : StreamHeader :=
  { salt := [0x74, 0x65, 0x73, 0x74], base_nonce := [7, 7, 7, 7, 7, 7, 7, 7, 7, 7, 7, 7],
    chunk_size := 4096, total_chunks := 1, original_size := 1, metadata := some [] }

/-- C2 counterexample: the header with `metadata = Some("")` satisfies the
claim's validity hypotheses, yet `read_from (write_to h)` returns the
header with `metadata = None`, which differs from `h`. -/
theorem stream_header_roundtrip_cex :
    validUtf8 emptyMetaHeader.salt = true
    ∧ emptyMetaHeader.metadata = some [] ∧ validUtf8 [] = true
    ∧ StreamHeader.read_from emptyMetaHeader.write_to ≠ .ok emptyMetaHeader := by
  refine ⟨by decide, rfl, rfl, ?_⟩
  intro hcontra
  have heval : StreamHeader.read_from emptyMetaHeader.write_to
      = .ok { emptyMetaHeader with metadata := none } := by rfl
  rw [heval] at hcontra
  simp [emptyMetaHeader] at hcontra

/-- Witness for C2's amended round-trip theorem at a concrete header. -/
theorem stream_header_roundtrip_witness :
    validUtf8 ([0x74, 0x65, 0x73, 0x74] : List Nat) = true ∧
    StreamHeader.read_from
        (StreamHeader.write_to
          { salt := [0x74, 0x65, 0x73, 0x74],
            base_nonce := [42, 42, 42, 42, 42, 42, 42, 42, 42, 42, 42, 42],
            chunk_size := 1048576, total_chunks := 100, original_size := 104857600,
            metadata := some [0x7b, 0x7d] })
      = .ok { salt := [0x74, 0x65, 0x73, 0x74],
              base_nonce := [42, 42, 42, 42, 42, 42, 42, 42, 42, 42, 42, 42],
              chunk_size := 1048576, total_chunks := 100, original_size := 104857600,
              metadata := some [0x7b, 0x7d] } :=
  ⟨by decide,
    stream_header_roundtrip _ (by decide) (by decide) (by decide) (by decide)
      (by decide) (by decide)
      (Or.inr ⟨[0x7b, 0x7d], rfl, by decide, by decide, by decide⟩)⟩

/-! ## Volume header (`src/volume/header.rs`) -/

/-- Magic bytes `"SECVOL01"`. -/
def MAGIC : List Nat := [0x53, 0x45, 0x43, 0x56, 0x4F, 0x4C, 0x30, 0x31]

/-- Current volume format version. -/
def VERSION : Nat := 1

/-- Size of the volume header in bytes (4 KB aligned). -/
def HEADER_SIZE : Nat := 4096

/-- Embedding of `CipherAlgorithm`. -/
inductive CipherAlgorithm where
  | Aes256Gcm
deriving DecidableEq, Repr

/-- The serde variant index of a `CipherAlgorithm` value. bincode v1
serializes a derived enum as its variant index (a `u32`), not as its
`#[repr(u8)]` discriminant. -/
def CipherAlgorithm.variantIndex : CipherAlgorithm → Nat
  | .Aes256Gcm => 0

/-- Embedding of `VolumeHeader`. -/
structure VolumeHeader where
  magic : List Nat
  version : Nat
  cipher : CipherAlgorithm
  salt : List Nat
  header_iv : List Nat
  volume_size : Nat
  sector_size : Nat
  created_at : Nat
  modified_at : Nat
  reserved : List Nat
deriving DecidableEq, Repr

/-- Embedding of `HeaderError`. -/
inductive HeaderError where
  | InvalidMagic
  | UnsupportedVersion (v : Nat)
  | IoError
  | Serialization
  | SizeMismatch (expected actual : Nat)
deriving DecidableEq, Repr

/-- Embedding of `bincode::serialize` for the derived `Serialize` impl of
`VolumeHeader` under bincode v1's default options: fixed-width
little-endian integers, fixed-size arrays as their raw elements (also via
`serde_big_array::BigArray` for `reserved`), and the enum field as its
`u32` variant index. -/
def bincodeSerialize (h : VolumeHeader) : List Nat :=
  h.magic ++ leBytes 4 h.version ++ leBytes 4 h.cipher.variantIndex
    ++ h.salt ++ h.header_iv ++ leBytes 8 h.volume_size ++ leBytes 4 h.sector_size
    ++ leBytes 8 h.created_at ++ leBytes 8 h.modified_at ++ h.reserved

/-- Embedding of `bincode::deserialize` for `VolumeHeader`: reads the
fields in declaration order (trailing bytes are permitted by bincode v1's
default options); fails on a truncated input or an out-of-range enum
variant index. -/
def bincodeDeserialize (bytes : List Nat) : Option VolumeHeader :=
  if bytes.length < 344 then none
  else
    let magic := bytes.take 8
    let bytes := bytes.drop 8
    let version := leVal (bytes.take 4)
    let bytes := bytes.drop 4
    let cipherTag := leVal (bytes.take 4)
    let bytes := bytes.drop 4
    if cipherTag ≠ 0 then none
    else
      let salt := bytes.take 32
      let bytes := bytes.drop 32
      let header_iv := bytes.take 12
      let bytes := bytes.drop 12
      let volume_size := leVal (bytes.take 8)
      let bytes := bytes.drop 8
      let sector_size := leVal (bytes.take 4)
      let bytes := bytes.drop 4
      let created_at := leVal (bytes.take 8)
      let bytes := bytes.drop 8
      let modified_at := leVal (bytes.take 8)
      let bytes := bytes.drop 8
      let reserved := bytes.take 256
      some { magic := magic, version := version, cipher := .Aes256Gcm,
             salt := salt, header_iv := header_iv, volume_size := volume_size,
             sector_size := sector_size, created_at := created_at,
             modified_at := modified_at, reserved := reserved }

/-- Embedding of `VolumeHeader::new`. The call
`SystemTime::now().duration_since(UNIX_EPOCH).as_secs()` is modelled by
the explicit parameter `now`. -/
def VolumeHeader.new (volume_size sector_size : Nat) (salt header_iv : List Nat)
    (now : Nat) : VolumeHeader :=
  { magic := MAGIC, version := VERSION, cipher := .Aes256Gcm,
    salt := salt, header_iv := header_iv, volume_size := volume_size,
    sector_size := sector_size, created_at := now, modified_at := now,
    reserved := List.replicate 256 0 }

/-- Embedding of `VolumeHeader::to_bytes`: serialize, fail with
`SizeMismatch` if longer than `HEADER_SIZE`, else zero-pad (`resize`) to
exactly `HEADER_SIZE` bytes. -/
def VolumeHeader.to_bytes (h : VolumeHeader) : Except HeaderError (List Nat) :=
  let serialized := bincodeSerialize h
  if serialized.length > HEADER_SIZE then
    .error (.SizeMismatch HEADER_SIZE serialized.length)
  else
    .ok (serialized ++ List.replicate (HEADER_SIZE - serialized.length) 0)

/-- Embedding of `VolumeHeader::from_bytes`: require exactly `HEADER_SIZE`
bytes, deserialize, then validate magic and version. -/
def VolumeHeader.from_bytes (bytes : List Nat) : Except HeaderError VolumeHeader :=
  if bytes.length ≠ HEADER_SIZE then
    .error (.SizeMismatch HEADER_SIZE bytes.length)
  else
    match bincodeDeserialize bytes with
    | none => .error .Serialization
    | some header =>
      if header.magic ≠ MAGIC then .error .InvalidMagic
      else if header.version ≠ VERSION then .error (.UnsupportedVersion header.version)
      else .ok header

/-- Embedding of `VolumeHeader::touch`: update `modified_at` to the current
Unix second, modelled by the explicit parameter `now`. -/
def VolumeHeader.touch (h : VolumeHeader) (now : Nat) : VolumeHeader :=
  { h with modified_at := now }

theorem bincodeSerialize_length (h : VolumeHeader)
    (hm : h.magic.length = 8) (hs : h.salt.length = 32)
    (hi : h.header_iv.length = 12) (hr : h.reserved.length = 256) :
    (bincodeSerialize h).length = 344 := by
  simp [bincodeSerialize, hm, hs, hi, hr]

theorem bincode_roundtrip (h : VolumeHeader) (pad : List Nat)
    (hm : h.magic.length = 8) (hs : h.salt.length = 32)
    (hi : h.header_iv.length = 12) (hr : h.reserved.length = 256)
    (hv : h.version < 2 ^ 32) (hvs : h.volume_size < 2 ^ 64)
    (hss : h.sector_size < 2 ^ 32) (hca : h.created_at < 2 ^ 64)
    (hma : h.modified_at < 2 ^ 64) :
    bincodeDeserialize (bincodeSerialize h ++ pad) = some h := by
  obtain ⟨mg, ver, cip, salt, iv, vs, ss, ca, ma, res⟩ := h
  cases cip
  simp only at hm hs hi hr hv hvs hss hca hma
  have hlen : (bincodeSerialize
      { magic := mg, version := ver, cipher := .Aes256Gcm, salt := salt,
        header_iv := iv, volume_size := vs, sector_size := ss,
        created_at := ca, modified_at := ma, reserved := res }).length = 344 :=
    bincodeSerialize_length _ hm hs hi hr
  unfold bincodeDeserialize
  rw [if_neg (by simp only [List.length_append, hlen]; omega)]
  unfold bincodeSerialize
  dsimp only [CipherAlgorithm.variantIndex]
  simp only [List.append_assoc]
  rw [List.take_left' hm, List.drop_left' hm]
  rw [List.take_left' (leBytes_length 4 ver), List.drop_left' (leBytes_length 4 ver)]
  rw [List.take_left' (leBytes_length 4 0), List.drop_left' (leBytes_length 4 0)]
  rw [leVal_leBytes 4 ver (by norm_num at hv ⊢; exact hv)]
  rw [leVal_leBytes 4 0 (by norm_num)]
  rw [if_neg (by decide)]
  rw [List.take_left' hs, List.drop_left' hs]
  rw [List.take_left' hi, List.drop_left' hi]
  rw [List.take_left' (leBytes_length 8 vs), List.drop_left' (leBytes_length 8 vs)]
  rw [List.take_left' (leBytes_length 4 ss), List.drop_left' (leBytes_length 4 ss)]
  rw [List.take_left' (leBytes_length 8 ca), List.drop_left' (leBytes_length 8 ca)]
  rw [List.take_left' (leBytes_length 8 ma), List.drop_left' (leBytes_length 8 ma)]
  rw [List.take_left' hr]
  rw [leVal_leBytes 8 vs (by norm_num at hvs ⊢; exact hvs)]
  rw [leVal_leBytes 4 ss (by norm_num at hss ⊢; exact hss)]
  rw [leVal_leBytes 8 ca (by norm_num at hca ⊢; exact hca)]
  rw [leVal_leBytes 8 ma (by norm_num at hma ⊢; exact hma)]

/-- C3: a header built by `VolumeHeader::new` serializes successfully to
exactly 4096 bytes, and `from_bytes` of those bytes returns a header equal
to the original in every field (hence in all non-reserved fields). -/
theorem volume_header_roundtrip (vs ss now : Nat) (salt iv : List Nat)
    (hs : salt.length = 32) (hi : iv.length = 12)
    (hvs : vs < 2 ^ 64) (hss : ss < 2 ^ 32) (hnow : now < 2 ^ 64) :
    ∃ bytes, (VolumeHeader.new vs ss salt iv now).to_bytes = .ok bytes
      ∧ bytes.length = 4096
      ∧ VolumeHeader.from_bytes bytes = .ok (VolumeHeader.new vs ss salt iv now) := by
  have hm : (VolumeHeader.new vs ss salt iv now).magic.length = 8 := rfl
  have hrv : (VolumeHeader.new vs ss salt iv now).reserved.length = 256 := by
    show (List.replicate 256 0).length = 256
    rw [List.length_replicate]
  have hlen : (bincodeSerialize (VolumeHeader.new vs ss salt iv now)).length = 344 :=
    bincodeSerialize_length _ hm hs hi hrv
  have hto : (VolumeHeader.new vs ss salt iv now).to_bytes
      = .ok (bincodeSerialize (VolumeHeader.new vs ss salt iv now)
          ++ List.replicate 3752 0) := by
    unfold VolumeHeader.to_bytes
    dsimp only
    rw [if_neg (by rw [hlen]; decide)]
    rw [hlen]
    rfl
  have hblen : (bincodeSerialize (VolumeHeader.new vs ss salt iv now)
      ++ List.replicate 3752 0).length = 4096 := by
    simp only [List.length_append, List.length_replicate, hlen]
  refine ⟨_, hto, hblen, ?_⟩
  have hde : bincodeDeserialize (bincodeSerialize (VolumeHeader.new vs ss salt iv now)
      ++ List.replicate 3752 0) = some (VolumeHeader.new vs ss salt iv now) := by
    apply bincode_roundtrip _ _ hm hs hi hrv
    · show (1 : Nat) < 2 ^ 32; norm_num
    · exact hvs
    · exact hss
    · exact hnow
    · exact hnow
  unfold VolumeHeader.from_bytes
  rw [if_neg (by rw [hblen]; decide)]
  rw [hde]
  have hmagic : (VolumeHeader.new vs ss salt iv now).magic = MAGIC := rfl
  have hver : (VolumeHeader.new vs ss salt iv now).version = VERSION := rfl
  simp [hmagic, hver]

/-- Witness for C3 at the spec's concrete scenario: a 1 GiB volume with
4096-byte sectors, salt of 32 ones, IV of 12 twos. -/
theorem volume_header_roundtrip_witness :
    (List.replicate 32 1).length = 32 ∧ (List.replicate 12 2).length = 12 ∧
    (1073741824 : Nat) < 2 ^ 64 ∧ (4096 : Nat) < 2 ^ 32 ∧ (1700000000 : Nat) < 2 ^ 64 ∧
    ∃ bytes,
      (VolumeHeader.new 1073741824 4096 (List.replicate 32 1) (List.replicate 12 2)
          1700000000).to_bytes = .ok bytes
      ∧ bytes.length = 4096
      ∧ VolumeHeader.from_bytes bytes
          = .ok (VolumeHeader.new 1073741824 4096 (List.replicate 32 1)
              (List.replicate 12 2) 1700000000) :=
  ⟨by decide, by decide, by norm_num, by norm_num, by norm_num,
    volume_header_roundtrip 1073741824 4096 1700000000 (List.replicate 32 1)
      (List.replicate 12 2) (by decide) (by decide) (by norm_num) (by norm_num)
      (by norm_num)⟩

/-- Modelled from the spec's claimed byte layout (claim C5): magic,
version as `u32` LE, cipher as a SINGLE byte with value 1, salt, IV,
`volume_size` as `u64` LE, `sector_size` as `u32` LE, timestamps as `u64`
LE, reserved bytes, then zero-padding to 4096. This follows the spec's
words, for comparison with the code-derived serializer. -/
def specVolumeLayout (h : VolumeHeader) : List Nat :=
  let body := h.magic ++ leBytes 4 h.version ++ [1] ++ h.salt ++ h.header_iv
    ++ leBytes 8 h.volume_size ++ leBytes 4 h.sector_size
    ++ leBytes 8 h.created_at ++ leBytes 8 h.modified_at ++ h.reserved
  body ++ List.replicate (4096 - body.length) 0

set_option maxRecDepth 100000 in
/-- C5 counterexample: for a concrete header built by `VolumeHeader::new`,
byte 12 of the actual serialization is 0 (low byte of the `u32` enum
variant tag emitted by bincode), while the spec's layout puts the single
cipher byte 1 there. -/
theorem volume_layout_cex :
    ((VolumeHeader.new 1024 512 (List.replicate 32 1) (List.replicate 12 2)
        100).to_bytes.toOption.getD []).getD 12 0 = 0
    ∧ (specVolumeLayout (VolumeHeader.new 1024 512 (List.replicate 32 1)
        (List.replicate 12 2) 100)).getD 12 0 = 1 := by
  constructor
  · rfl
  · rfl

/-- C5 amended: the bytes produced by `to_bytes` for a header built by
`VolumeHeader::new` are the magic `"SECVOL01"`, version as `u32` LE,
the cipher as its 4-byte `u32` LE bincode variant tag `0`, salt, IV,
`volume_size` as `u64` LE, `sector_size` as `u32` LE, `created_at` and
`modified_at` as `u64` LE, the 256 zeroed reserved bytes, then
zero-padding to 4096 bytes. -/
theorem volume_layout_bincode (vs ss now : Nat) (salt iv : List Nat)
    (hs : salt.length = 32) (hi : iv.length = 12) :
    (VolumeHeader.new vs ss salt iv now).to_bytes
      = .ok ([0x53, 0x45, 0x43, 0x56, 0x4F, 0x4C, 0x30, 0x31]
          ++ leBytes 4 1 ++ [0, 0, 0, 0] ++ salt ++ iv ++ leBytes 8 vs
          ++ leBytes 4 ss ++ leBytes 8 now ++ leBytes 8 now
          ++ List.replicate 256 0 ++ List.replicate 3752 0) := by
  have hm : (VolumeHeader.new vs ss salt iv now).magic.length = 8 := rfl
  have hrv : (VolumeHeader.new vs ss salt iv now).reserved.length = 256 := by
    show (List.replicate 256 0).length = 256
    rw [List.length_replicate]
  have hlen : (bincodeSerialize (VolumeHeader.new vs ss salt iv now)).length = 344 :=
    bincodeSerialize_length _ hm hs hi hrv
  unfold VolumeHeader.to_bytes
  dsimp only
  rw [if_neg (by rw [hlen]; decide)]
  rw [hlen]
  show Except.ok (bincodeSerialize (VolumeHeader.new vs ss salt iv now)
      ++ List.replicate 3752 0) = _
  unfold bincodeSerialize VolumeHeader.new
  dsimp only [CipherAlgorithm.variantIndex]
  rw [show MAGIC = [0x53, 0x45, 0x43, 0x56, 0x4F, 0x4C, 0x30, 0x31] from rfl,
    show VERSION = 1 from rfl,
    show leBytes 4 0 = [0, 0, 0, 0] from rfl]

/-- Witness for C5's amended layout theorem at a concrete header. -/
theorem volume_layout_bincode_witness :
    (List.replicate 32 1).length = 32 ∧ (List.replicate 12 2).length = 12 ∧
    (VolumeHeader.new 1024 512 (List.replicate 32 1) (List.replicate 12 2)
        100).to_bytes
      = .ok ([0x53, 0x45, 0x43, 0x56, 0x4F, 0x4C, 0x30, 0x31]
          ++ leBytes 4 1 ++ [0, 0, 0, 0] ++ List.replicate 32 1
          ++ List.replicate 12 2 ++ leBytes 8 1024
          ++ leBytes 4 512 ++ leBytes 8 100 ++ leBytes 8 100
          ++ List.replicate 256 0 ++ List.replicate 3752 0) :=
  ⟨by decide, by decide,
    volume_layout_bincode 1024 512 100 (List.replicate 32 1) (List.replicate 12 2)
      (by decide) (by decide)⟩

/-- C8 amended: `from_bytes` rejects any input whose length is not 4096
with `SizeMismatch`; on 4096-byte inputs it returns a `Serialization`
error when bincode decoding fails (an out-of-range cipher variant tag),
and otherwise returns `InvalidMagic` when the decoded magic differs from
`"SECVOL01"`, `UnsupportedVersion(v)` when the magic matches but the
decoded version `v` is not the supported constant, and `Ok` exactly when
decoding and both checks succeed. -/
theorem from_bytes_validation (bytes : List Nat) :
    (bytes.length ≠ 4096 →
      VolumeHeader.from_bytes bytes = .error (.SizeMismatch 4096 bytes.length))
    ∧ (bytes.length = 4096 → bincodeDeserialize bytes = none →
      VolumeHeader.from_bytes bytes = .error .Serialization)
    ∧ (∀ h, bytes.length = 4096 → bincodeDeserialize bytes = some h →
      (h.magic ≠ MAGIC → VolumeHeader.from_bytes bytes = .error .InvalidMagic)
      ∧ (h.magic = MAGIC → h.version ≠ VERSION →
        VolumeHeader.from_bytes bytes = .error (.UnsupportedVersion h.version))
      ∧ (h.magic = MAGIC → h.version = VERSION →
        VolumeHeader.from_bytes bytes = .ok h)) := by
  refine ⟨?_, ?_, ?_⟩
  · intro hne
    unfold VolumeHeader.from_bytes
    rw [if_pos (by simpa [HEADER_SIZE] using hne)]
    rfl
  · intro heq hnone
    unfold VolumeHeader.from_bytes
    rw [if_neg (by simp [HEADER_SIZE, heq]), hnone]
  · intro h heq hsome
    refine ⟨?_, ?_, ?_⟩
    · intro hmag
      unfold VolumeHeader.from_bytes
      rw [if_neg (by simp [HEADER_SIZE, heq]), hsome]
      dsimp only
      rw [if_pos hmag]
    · intro hmag hver
      unfold VolumeHeader.from_bytes
      rw [if_neg (by simp [HEADER_SIZE, heq]), hsome]
      dsimp only
      rw [if_neg (by simp [hmag]), if_pos hver]
    · intro hmag hver
      unfold VolumeHeader.from_bytes
      rw [if_neg (by simp [HEADER_SIZE, heq]), hsome]
      dsimp only
      rw [if_neg (by simp [hmag]), if_neg (by simp [hver])]

/-- Witness for C8's amended theorem: a 4095-byte input is rejected with
`SizeMismatch`. -/
theorem from_bytes_validation_witness :
    (List.replicate 4095 (0 : Nat)).length ≠ 4096 ∧
      VolumeHeader.from_bytes (List.replicate 4095 0)
        = .error (.SizeMismatch 4096 (List.replicate 4095 0).length) := by
  have h : (List.replicate 4095 (0 : Nat)).length ≠ 4096 := by
    rw [List.length_replicate]; omega
  exact ⟨h, (from_bytes_validation _).1 h⟩

/-- A 4096-byte input with magic `"INVALID!"`, version 1, and an
out-of-range cipher variant tag 5. -/
def badCipherBytes : List Nat :=
  [0x49, 0x4E, 0x56, 0x41, 0x4C, 0x49, 0x44, 0x21] ++ leBytes 4 1 ++ leBytes 4 5
    ++ List.replicate 4080 0

/-- C8 counterexample: on `badCipherBytes` the decoded magic differs from
`"SECVOL01"`, yet `from_bytes` returns a `Serialization` error (bincode
fails on the cipher variant tag before the magic check runs), not
`InvalidMagic` as the claim requires. -/
theorem from_bytes_cex :
    badCipherBytes.length = 4096
    ∧ badCipherBytes.take 8 ≠ MAGIC
    ∧ VolumeHeader.from_bytes badCipherBytes = .error .Serialization
    ∧ VolumeHeader.from_bytes badCipherBytes ≠ .error .InvalidMagic := by
  have hlen : badCipherBytes.length = 4096 := by
    unfold badCipherBytes
    simp only [List.length_append, List.length_replicate, leBytes_length,
      List.length_cons, List.length_nil]
  have hde : bincodeDeserialize badCipherBytes = none := by
    unfold bincodeDeserialize
    rw [if_neg (by rw [hlen]; decide)]
    unfold badCipherBytes
    simp only [List.append_assoc]
    rw [List.drop_left' (by rfl : ([0x49, 0x4E, 0x56, 0x41, 0x4C, 0x49, 0x44, 0x21]
      : List Nat).length = 8)]
    rw [List.drop_left' (leBytes_length 4 1)]
    rw [List.take_left' (leBytes_length 4 5)]
    rw [leVal_leBytes 4 5 (by norm_num)]
    rw [if_pos (by decide)]
  have hfb : VolumeHeader.from_bytes badCipherBytes = .error .Serialization := by
    unfold VolumeHeader.from_bytes
    rw [if_neg (by rw [hlen]; decide), hde]
  refine ⟨hlen, ?_, hfb, ?_⟩
  · unfold badCipherBytes
    simp only [List.append_assoc]
    rw [List.take_left' (by rfl : ([0x49, 0x4E, 0x56, 0x41, 0x4C, 0x49, 0x44, 0x21]
      : List Nat).length = 8)]
    decide
  · rw [hfb]
    simp

/-- C9: `touch` sets `modified_at` to the current Unix second (strictly
above the previous value whenever real time has advanced) and leaves
every other field unchanged, in particular `created_at`. The current time
is the explicit parameter `now`. -/
theorem touch_spec (h : VolumeHeader) (now : Nat) (hadv : h.modified_at < now) :
    (h.touch now).modified_at = now
    ∧ h.modified_at < (h.touch now).modified_at
    ∧ (h.touch now).created_at = h.created_at
    ∧ (h.touch now).magic = h.magic
    ∧ (h.touch now).version = h.version
    ∧ (h.touch now).cipher = h.cipher
    ∧ (h.touch now).salt = h.salt
    ∧ (h.touch now).header_iv = h.header_iv
    ∧ (h.touch now).volume_size = h.volume_size
    ∧ (h.touch now).sector_size = h.sector_size
    ∧ (h.touch now).reserved = h.reserved :=
  ⟨rfl, hadv, rfl, rfl, rfl, rfl, rfl, rfl, rfl, rfl, rfl⟩

/-- A concrete header used to witness the `touch` theorem. -/
def touchDemoHeader : VolumeHeader :=
  VolumeHeader.new 1024 512 (List.replicate 32 1) (List.replicate 12 2) 100

/-- Witness for C9 at a concrete header, advancing time from 100 to 101. -/
theorem touch_spec_witness :
    touchDemoHeader.modified_at < 101
    ∧ ((touchDemoHeader.touch 101).modified_at = 101
      ∧ touchDemoHeader.modified_at < (touchDemoHeader.touch 101).modified_at
      ∧ (touchDemoHeader.touch 101).created_at = touchDemoHeader.created_at
      ∧ (touchDemoHeader.touch 101).magic = touchDemoHeader.magic
      ∧ (touchDemoHeader.touch 101).version = touchDemoHeader.version
      ∧ (touchDemoHeader.touch 101).cipher = touchDemoHeader.cipher
      ∧ (touchDemoHeader.touch 101).salt = touchDemoHeader.salt
      ∧ (touchDemoHeader.touch 101).header_iv = touchDemoHeader.header_iv
      ∧ (touchDemoHeader.touch 101).volume_size = touchDemoHeader.volume_size
      ∧ (touchDemoHeader.touch 101).sector_size = touchDemoHeader.sector_size
      ∧ (touchDemoHeader.touch 101).reserved = touchDemoHeader.reserved) :=
  ⟨by decide, touch_spec touchDemoHeader 101 (by decide)⟩

/-! ## WASM bindings (`src/wasm/bindings.rs`) -/

/-- Embedding of the WASM `EncryptConfig`. -/
structure EncryptConfig where
  use_argon2 : Bool
  memory_cost : Nat
  time_cost : Nat
deriving DecidableEq, Repr

/-- Embedding of the crate's `CryptoConfig` as constructed by the
bindings (`argon2_lanes` is fixed at 1). -/
structure CryptoConfig where
  argon2_mem_cost_kib : Nat
  argon2_time_cost : Nat
  argon2_lanes : Nat
deriving DecidableEq, Repr

/-- The Argon2 key-derivation primitive as an abstract parameter: it
receives the `CryptoConfig`, the password bytes and the salt bytes and
returns a key or an error message. The concrete Argon2 implementation is
an external crate. -/
def KdfFun : Type := CryptoConfig → List Nat → List Nat → Except String (List Nat)

/-- The AES-GCM decryption primitive as an abstract parameter: key, nonce,
ciphertext to plaintext or error. The concrete AEAD implementation is an
external crate. -/
def DecFun : Type := List Nat → List Nat → List Nat → Except String (List Nat)

/-- Embedding of `decrypt_bytes_with_config`, parameterized by the KDF and
AEAD primitives: check that the envelope holds at least `32 + 12` bytes,
split it into `salt || nonce || ciphertext`, derive the key, decrypt. -/
def decrypt_bytes_with_config (derive_key : KdfFun) (decrypt : DecFun)
    (password encrypted_data : List Nat) (config : EncryptConfig) :
    Except String (List Nat) :=
  let salt_size := 32
  if encrypted_data.length < salt_size + 12 then .error "Invalid encrypted data"
  else
    let (salt, rest) := encrypted_data.splitAt salt_size
    let (nonce, ciphertext) := rest.splitAt 12
    if nonce.length ≠ 12 then .error "Invalid nonce"
    else
      let crypto_config : CryptoConfig :=
        { argon2_mem_cost_kib := config.memory_cost,
          argon2_time_cost := config.time_cost, argon2_lanes := 1 }
      match derive_key crypto_config password salt with
      | .error e => .error ("Key derivation failed: " ++ e)
      | .ok key =>
        match decrypt key nonce ciphertext with
        | .error e => .error ("Decryption failed: " ++ e)
        | .ok plaintext => .ok plaintext

/-- Embedding of `decrypt_text_with_config`, additionally parameterized by
the base64 decoder (the `base64` crate's `STANDARD` engine): decode the
base64 envelope, run the byte path, and UTF-8-validate the plaintext. -/
def decrypt_text_with_config (b64decode : String → Except String (List Nat))
    (derive_key : KdfFun) (decrypt : DecFun)
    (password : List Nat) (encrypted_base64 : String) (config : EncryptConfig) :
    Except String (List Nat) :=
  match b64decode encrypted_base64 with
  | .error e => .error ("Base64 decode failed: " ++ e)
  | .ok data =>
    if data.length < 32 + 12 then .error "Invalid encrypted data"
    else
      let (salt, rest) := data.splitAt 32
      let (nonce, ciphertext) := rest.splitAt 12
      if nonce.length ≠ 12 then .error "Invalid nonce"
      else
        let crypto_config : CryptoConfig :=
          { argon2_mem_cost_kib := config.memory_cost,
            argon2_time_cost := config.time_cost, argon2_lanes := 1 }
        match derive_key crypto_config password salt with
        | .error e => .error ("Key derivation failed: " ++ e)
        | .ok key =>
          match decrypt key nonce ciphertext with
          | .error e => .error ("Decryption failed: " ++ e)
          | .ok plaintext =>
            if validUtf8 plaintext then .ok plaintext
            else .error "UTF-8 decode failed"

/-- C10: envelopes shorter than 44 bytes (32-byte salt plus 12-byte nonce)
are rejected with `"Invalid encrypted data"` by `decrypt_bytes_with_config`
regardless of the KDF and AEAD primitives (so neither is invoked), and
likewise by `decrypt_text_with_config` whenever the base64 decoder yields
such a short envelope; on envelopes of at least 44 bytes the salt passed
to the KDF is always the first 32 bytes and the nonce passed to the AEAD
is always the next 12 bytes. -/
theorem decrypt_envelope_spec (password data : List Nat) (config : EncryptConfig) :
    (data.length < 44 →
      (∀ derive_key decrypt, decrypt_bytes_with_config derive_key decrypt
          password data config = .error "Invalid encrypted data")
      ∧ (∀ b64decode s derive_key decrypt, b64decode s = .ok data →
          decrypt_text_with_config b64decode derive_key decrypt
            password s config = .error "Invalid encrypted data"))
    ∧ (44 ≤ data.length →
      ∀ derive_key decrypt, decrypt_bytes_with_config derive_key decrypt
          password data config
        = match derive_key ({ argon2_mem_cost_kib := config.memory_cost,
                              argon2_time_cost := config.time_cost,
                              argon2_lanes := 1 } : CryptoConfig)
            password (data.take 32) with
          | .error e => .error ("Key derivation failed: " ++ e)
          | .ok key =>
            match decrypt key ((data.drop 32).take 12) ((data.drop 32).drop 12) with
            | .error e => .error ("Decryption failed: " ++ e)
            | .ok plaintext => .ok plaintext) := by
  constructor
  · intro hshort
    constructor
    · intro derive_key decrypt
      unfold decrypt_bytes_with_config
      rw [if_pos (by omega)]
    · intro b64decode s derive_key decrypt hb64
      unfold decrypt_text_with_config
      rw [hb64]
      dsimp only
      rw [if_pos (by omega)]
  · intro hlong derive_key decrypt
    unfold decrypt_bytes_with_config
    rw [if_neg (by omega)]
    dsimp only
    rw [List.splitAt_eq, List.splitAt_eq]
    dsimp only
    rw [if_neg (by rw [List.length_take, List.length_drop]; omega)]

/-- Witness for C10 at a 43-byte envelope and concrete primitives. -/
theorem decrypt_envelope_spec_witness :
    (List.replicate 43 (0 : Nat)).length < 44 ∧
      decrypt_bytes_with_config (fun _ _ _ => .ok []) (fun _ _ _ => .ok [])
          [] (List.replicate 43 0) { use_argon2 := true, memory_cost := 65536, time_cost := 3 }
        = .error "Invalid encrypted data" := by
  have h : (List.replicate 43 (0 : Nat)).length < 44 := by
    rw [List.length_replicate]; omega
  exact ⟨h, (((decrypt_envelope_spec [] (List.replicate 43 0)
    { use_argon2 := true, memory_cost := 65536, time_cost := 3 }).1 h).1
    (fun _ _ _ => .ok []) (fun _ _ _ => .ok []))⟩

end Tesseract
